import Mathlib

/-!
Verification of the word-language-model training harness (`main.py`).

We shallowly embed the pure control and data-shaping logic of the program:
the training controller's checkpoint / patience / learning-rate-decay step
(`main.py` lines 277-294), the batcher `batchify` (lines 100-107), the window
extractor `get_batch` (lines 153-169), the evaluation loop `evaluate`
(lines 172-190), and the optimizer setup and step (lines 220-224, 253-256).

Token streams are lists of natural numbers (vocabulary ids); a batched tensor
is a list of rows, each row a list of entries (one per batch column); losses
and learning rates are rationals.
-/

namespace WordLM

/-! ### Training controller (main.py lines 250-294)

Mutable training state: the learning rate `lr` (line 251), the best recorded
validation loss `best_val_loss` (line 258, initially `None`), and the
patience counter `patience_count` (line 259).
-/

/-- Hyperparameters of the controller: `args.patience` and
`args.lr_decay_rate`. -/
structure Hyper where
  patience : ℕ
  lr_decay_rate : ℚ
deriving Repr, DecidableEq

/-- Controller state across evaluations: `lr`, `best_val_loss`,
`patience_count` (main.py lines 251, 258, 259). -/
structure TrainState where
  lr : ℚ
  best_val_loss : Option ℚ
  patience_count : ℕ
deriving Repr, DecidableEq

/-- The condition of line 278, `if not best_val_loss or val_loss < best_val_loss`.
Python truthiness: `not None` is `True`, and `not 0.0` is also `True`;
the `or` short-circuits, so `val_loss < best_val_loss` is only evaluated
when a best value is present. -/
def checkpointCond : Option ℚ → ℚ → Bool
  | none, _ => true
  | some b, val => b == 0 || decide (val < b)

/-- One pass through the body of lines 277-290: given the current state and
the fresh validation loss, produce the next state and whether the model was
checkpointed (lines 279-280).  Improvement branch: save, record best, reset
counter (lines 279-282).  Otherwise: if the counter equals `patience`, divide
`lr` by `lr_decay_rate` and reset the counter (lines 284-288), else increment
the counter (line 290). -/
def evalStep (h : Hyper) (s : TrainState) (val : ℚ) : TrainState × Bool :=
  if checkpointCond s.best_val_loss val then
    ({ s with best_val_loss := some val, patience_count := 0 }, true)
  else if s.patience_count = h.patience then
    ({ s with lr := s.lr / h.lr_decay_rate, patience_count := 0 }, false)
  else
    ({ s with patience_count := s.patience_count + 1 }, false)

/-- Fold `evalStep` over a list of successive validation losses. -/
def evalSteps (h : Hyper) (s : TrainState) (vals : List ℚ) : TrainState :=
  vals.foldl (fun st v => (evalStep h st v).1) s

/-! ### Batcher (main.py lines 100-107)

`batchify(data, bsz)`: `nbatch = data.size(0) // bsz`; the stream is trimmed
to `nbatch * bsz` tokens (`narrow`), viewed as `bsz` contiguous chunks of
length `nbatch` (`view(bsz, -1)`), and transposed (`t()`), so the result has
`nbatch` rows and `bsz` columns, and column `c` is the `c`-th chunk. -/

/-- `batchify` over a flat token stream: result row `r`, column `c` holds
`stream[c * nbatch + r]`.  Built exactly as the source does: trim, chunk,
transpose. -/
def batchify (data : List ℕ) (bsz : ℕ) : List (List ℕ) :=
  let nbatch := data.length / bsz
  let trimmed := data.take (nbatch * bsz)
  let chunks := (List.range bsz).map fun c => (trimmed.drop (c * nbatch)).take nbatch
  (List.range nbatch).map fun r => chunks.map fun col => col.getD r 0

/-! ### Window extractor (main.py lines 153-169)

`get_batch(source, i, ntokens, pad_start)` slices a window of at most
`args.bptt` rows from the batched tensor `source`.  The target is flattened
(`view(-1)`), i.e. the concatenation of its rows. -/

/-- The configuration `get_batch` reads from `args` and the globals:
`args.bptt`, `args.norder`, `args.pad_vocab`, and `pad_id` (line 86). -/
structure Cfg where
  bptt : ℕ
  norder : ℕ
  pad_vocab : Bool
  pad_id : ℕ
deriving Repr, DecidableEq

/-- Line 117: `ntokens = len(corpus.dictionary) + args.norder if args.pad_vocab
else len(corpus.dictionary)`. -/
def ntokensOf (cfg : Cfg) (nvocab : ℕ) : ℕ :=
  if cfg.pad_vocab then nvocab + cfg.norder else nvocab

/-- The padding block of lines 157-161: with `pad_vocab`, the prefix is
`[ntokens-norder, ..., ntokens-1]` expanded across the columns (row `k` is
the constant `ntokens - norder + k`); otherwise a `norder x ncols` block of
`pad_id`. -/
def padBlock (cfg : Cfg) (ntokens ncols : ℕ) : List (List ℕ) :=
  if cfg.pad_vocab then
    (List.range cfg.norder).map fun k => List.replicate ncols (ntokens - cfg.norder + k)
  else
    List.replicate cfg.norder (List.replicate ncols cfg.pad_id)

/-- The `pad_start` branch of `get_batch` (lines 154-163):
`seq_len = min(bptt, len(source) - i)`; `data = padding ++ source[i:i+seq_len-1]`;
`target = source[i:i+seq_len].view(-1)`. -/
def getBatchPad (cfg : Cfg) (source : List (List ℕ)) (i ntokens : ℕ) :
    List (List ℕ) × List ℕ :=
  let seq_len := min cfg.bptt (source.length - i)
  let data := (source.drop i).take (seq_len - 1)
  let ncols := (source.headD []).length
  let padding := padBlock cfg ntokens ncols
  (padding ++ data, ((source.drop i).take seq_len).flatten)

/-- The sequential branch of `get_batch` (lines 164-167):
`seq_len = min(bptt, len(source) - 1 - i)`; `data = source[i:i+seq_len]`;
`target = source[i+1:i+1+seq_len].view(-1)`. -/
def getBatchSeq (source : List (List ℕ)) (i bptt : ℕ) :
    List (List ℕ) × List ℕ :=
  let seq_len := min bptt (source.length - 1 - i)
  ((source.drop i).take seq_len, ((source.drop (i + 1)).take seq_len).flatten)

/-! ### Evaluation (main.py lines 172-190)

`evaluate` walks `range(0, data_source.size(0) - 1, args.bptt)`, calls
`get_batch` at each start index, accumulates `len(data) * criterion(...)`
and returns `total_loss / (len(data_source) - 1)`.  The model and criterion
are external collaborators; we abstract them as a function from the window
to its criterion value (the mean loss over the window's target tokens). -/

/-- Python `range(i, stop, step)` for a positive step. -/
def rangeStep (i stop step : ℕ) : List ℕ :=
  if i < stop ∧ 0 < step then i :: rangeStep (i + step) stop step else []
termination_by stop - i
decreasing_by omega

/-- `evaluate(data_source)` (lines 172-190), with the per-window criterion
value supplied by `loss`: iterates window starts `0, bptt, 2*bptt, ...`
below `len(source) - 1`, adds `len(data) * loss(data, targets)` per window,
and divides the total by `len(source) - 1`. -/
def evaluate (cfg : Cfg) (source : List (List ℕ)) (ntokens : ℕ)
    (padStart : Bool) (loss : List (List ℕ) × List ℕ → ℚ) : ℚ :=
  let total := (rangeStep 0 (source.length - 1) cfg.bptt).foldl
    (fun acc i =>
      let w := if padStart then getBatchPad cfg source i ntokens
               else getBatchSeq source i cfg.bptt
      acc + (w.1.length : ℚ) * loss w) 0
  total / ((source.length : ℚ) - 1)

/-! ### Optimizer setup and step (main.py lines 220-224, 253-256) -/

/-- The optimizer active for a run: AdamW with its configured learning rate
and weight decay (line 254), or manual SGD (lines 220-222). -/
inductive OptimChoice where
  | adamw (lr weight_decay : ℚ)
  | sgd
deriving Repr, DecidableEq

/-- Lines 253-256: construct AdamW for `'adamw'`, accept `'sgd'`, and fail
with the assertion message for anything else. -/
def setupOptimizer (name : String) (lr weight_decay : ℚ) :
    Except String OptimChoice :=
  if name = "adamw" then .ok (.adamw lr weight_decay)
  else if name = "sgd" then .ok .sgd
  else .error "Specified optimizer not supported"

/-- The whole run, abstracted to its phase order: the optimizer is set up
(lines 253-256) strictly before the training loop (line 267 onward) runs;
a setup failure therefore prevents any training work. -/
def runProgram {α : Type} (name : String) (lr weight_decay : ℚ)
    (trainingLoop : OptimChoice → α) : Except String α :=
  (setupOptimizer name lr weight_decay).map trainingLoop

/-- Lines 220-224 of `train`: with `'sgd'`, every parameter is updated
in place by `p.data.add_(p.grad, alpha=-lr)`; otherwise `optimizer.step()`
(abstracted as `adamStep`). -/
def optimizerUpdate (optimName : String) (lr : ℚ) (params grads : List ℚ)
    (adamStep : List ℚ → List ℚ → List ℚ) : List ℚ :=
  if optimName = "sgd" then
    List.zipWith (fun p g => p + g * (-lr)) params grads
  else
    adamStep params grads

/-! ## Helper lemmas -/

/-- The learning rate after one controller step: divided by the decay rate
exactly on a non-improving evaluation whose entry counter equals `patience`,
unchanged otherwise. -/
theorem evalStep_lr (h : Hyper) (s : TrainState) (val : ℚ) :
    (evalStep h s val).1.lr =
      if checkpointCond s.best_val_loss val = false ∧ s.patience_count = h.patience
      then s.lr / h.lr_decay_rate else s.lr := by
  unfold evalStep
  cases hc : checkpointCond s.best_val_loss val with
  | true => simp [hc]
  | false =>
    by_cases hp : s.patience_count = h.patience <;> simp [hc, hp]

/-- The checkpoint flag of one controller step, in terms of the recorded
best loss: it is set when no best exists, when the recorded best is `0`
(Python truthiness of `not best_val_loss`), or on strict improvement. -/
theorem evalStep_saved_iff (h : Hyper) (s : TrainState) (val : ℚ) :
    (evalStep h s val).2 = true ↔
      s.best_val_loss = none ∨ s.best_val_loss = some 0 ∨
        ∃ b, s.best_val_loss = some b ∧ val < b := by
  unfold evalStep
  cases hb : s.best_val_loss with
  | none => simp [hb, checkpointCond]
  | some b =>
    by_cases h0 : b = 0
    · subst h0
      simp [checkpointCond]
    · by_cases hlt : val < b
      · have hc : checkpointCond (some b) val = true := by
          simp [checkpointCond, hlt]
        simp [hc, h0, hlt]
      · have hc : checkpointCond (some b) val = false := by
          simp [checkpointCond, h0, hlt]
        by_cases hp : s.patience_count = h.patience <;>
          simp [hc, hp, h0, hlt]

/-- On the checkpoint branch the best loss is recorded and the counter is
reset. -/
theorem evalStep_saved_effects (h : Hyper) (s : TrainState) (val : ℚ)
    (hs : (evalStep h s val).2 = true) :
    (evalStep h s val).1.best_val_loss = some val ∧
      (evalStep h s val).1.patience_count = 0 := by
  unfold evalStep at *
  cases hc : checkpointCond s.best_val_loss val with
  | true => simp [hc]
  | false =>
    rw [hc] at hs
    by_cases hp : s.patience_count = h.patience <;> simp [hp] at hs

/-- On the decay branch the counter is reset and the rate is divided. -/
theorem evalStep_decay_effects (h : Hyper) (s : TrainState) (val : ℚ)
    (hc : checkpointCond s.best_val_loss val = false)
    (hp : s.patience_count = h.patience) :
    (evalStep h s val).1.patience_count = 0 ∧
      (evalStep h s val).1.lr = s.lr / h.lr_decay_rate := by
  unfold evalStep
  simp [hc, hp]

/-! ## Claim C1: learning-rate decay timing -/

/-- C1 (counterexample): with `patience = 2`, `lr_decay_rate = 4`, best loss
`1`, and validation losses `2, 2, 2` (three consecutive non-improving
evaluations), the learning rate is still `8` after the second non-improving
evaluation — no decay has happened yet, contrary to the claim — and the one
decay happens at the third evaluation, leaving `lr = 2` and the counter `0`. -/
theorem C1_counterexample :
    (evalSteps ⟨2, 4⟩ ⟨8, some 1, 0⟩ [2, 2]).lr = 8 ∧
    evalSteps ⟨2, 4⟩ ⟨8, some 1, 0⟩ [2, 2, 2] =
      { lr := 2, best_val_loss := some 1, patience_count := 0 } ∧
    (8 : ℚ) / 4 ≠ 8 := by
  refine ⟨by decide, ?_, by norm_num⟩
  simp only [evalSteps, List.foldl]
  norm_num [evalStep, checkpointCond, TrainState.mk.injEq]

/-- C1 (amended): the learning rate is divided by the configured decay
factor exactly on a non-improving evaluation at which the patience counter
already equals the patience threshold (i.e. on the `patience + 1`-st
consecutive non-improving evaluation), and never changes otherwise; with
`patience = 2` and three consecutive non-improving evaluations the rate
decays exactly once, at the third non-improving evaluation, and the counter
resets to `0` after the decay. -/
theorem C1_lr_decay :
    (∀ (h : Hyper) (s : TrainState) (val : ℚ),
      (evalStep h s val).1.lr =
        if checkpointCond s.best_val_loss val = false ∧
            s.patience_count = h.patience
        then s.lr / h.lr_decay_rate else s.lr) ∧
    (evalSteps ⟨2, 4⟩ ⟨8, some 1, 0⟩ [2, 2]).lr = 8 ∧
    evalSteps ⟨2, 4⟩ ⟨8, some 1, 0⟩ [2, 2, 2] =
      { lr := 2, best_val_loss := some 1, patience_count := 0 } :=
  ⟨evalStep_lr, by decide, by
    simp only [evalSteps, List.foldl]
    norm_num [evalStep, checkpointCond, TrainState.mk.injEq]⟩

/-! ## Claim C2: checkpoint rule -/

/-- C2 (counterexample): from recorded best loss `0` and new validation loss
`1`, the code takes the checkpoint branch (the model is saved) although the
new loss is not strictly lower than the best and a best loss is recorded —
the claimed "if and only if" fails. -/
theorem C2_counterexample :
    (evalStep ⟨2, 4⟩ ⟨1, some 0, 0⟩ 1).2 = true ∧
    ¬ ((1 : ℚ) < 0) ∧ some (0 : ℚ) ≠ (none : Option ℚ) := by
  refine ⟨by decide, by norm_num, by decide⟩

/-- C2 (amended): after every validation evaluation the checkpoint is
updated iff the new loss is strictly lower than the recorded best, or no
best is recorded yet, or the recorded best is exactly `0` (truthiness of
`not best_val_loss`); every checkpoint update records the new loss as best
and resets the patience counter, and every learning-rate decay resets the
patience counter. -/
theorem C2_checkpoint_rule :
    ∀ (h : Hyper) (s : TrainState) (val : ℚ),
      ((evalStep h s val).2 = true ↔
        s.best_val_loss = none ∨ s.best_val_loss = some 0 ∨
          ∃ b, s.best_val_loss = some b ∧ val < b) ∧
      ((evalStep h s val).2 = true →
        (evalStep h s val).1.best_val_loss = some val ∧
          (evalStep h s val).1.patience_count = 0) ∧
      (checkpointCond s.best_val_loss val = false →
        s.patience_count = h.patience →
        (evalStep h s val).1.patience_count = 0 ∧
          (evalStep h s val).1.lr = s.lr / h.lr_decay_rate) :=
  fun h s val =>
    ⟨evalStep_saved_iff h s val,
     evalStep_saved_effects h s val,
     fun hc hp => evalStep_decay_effects h s val hc hp⟩

/-- C2 (witness): the amended rule applied at concrete states — a first
evaluation (no recorded best) saves and resets the counter, and a
non-improving evaluation with the counter at the threshold decays the rate. -/
theorem C2_checkpoint_rule_witness :
    (evalStep ⟨2, 4⟩ ⟨8, none, 0⟩ 5).1.patience_count = 0 ∧
    (evalStep ⟨2, 4⟩ ⟨8, some 1, 2⟩ 3).1.lr = 8 / 4 :=
  ⟨((C2_checkpoint_rule ⟨2, 4⟩ ⟨8, none, 0⟩ 5).2.1 (by decide)).2,
   ((C2_checkpoint_rule ⟨2, 4⟩ ⟨8, some 1, 2⟩ 3).2.2 (by decide) rfl).2⟩

/-! ## Claim C10: truthiness of the recorded best loss -/

/-- C10: if the recorded best validation loss is exactly `0`, the next
evaluation takes the improvement branch for every new validation loss:
the model is checkpointed, the new loss is recorded as best, and the
patience counter resets — even when the new loss is not lower than `0`. -/
theorem C10_zero_best_truthiness :
    ∀ (h : Hyper) (lr : ℚ) (c : ℕ) (val : ℚ),
      evalStep h ⟨lr, some 0, c⟩ val =
        ({ lr := lr, best_val_loss := some val, patience_count := 0 }, true) := by
  intro h lr c val
  simp [evalStep, checkpointCond]

/-- `getD` through a `map` over `List.range`. -/
theorem getD_map_range {α : Type} (n i : ℕ) (f : ℕ → α) (d : α) (h : i < n) :
    ((List.range n).map f).getD i d = f i := by
  rw [List.getD_eq_getElem?_getD, List.getElem?_map, List.getElem?_range h]
  rfl

/-- The batcher yields `floor (N / B)` rows. -/
theorem batchify_length (data : List ℕ) (B : ℕ) :
    (batchify data B).length = data.length / B := by
  simp [batchify]

/-- Every row of the batcher output has `B` columns. -/
theorem batchify_row_length (data : List ℕ) (B : ℕ) :
    ∀ row ∈ batchify data B, row.length = B := by
  intro row hrow
  unfold batchify at hrow
  simp only [List.mem_map, List.mem_range] at hrow
  obtain ⟨r, -, rfl⟩ := hrow
  simp

/-- Entry formula of the batcher: row `r`, column `c` is token
`c * (N / B) + r` of the stream — column `c` is the `c`-th of the `B`
equal contiguous chunks of the truncated stream. -/
theorem batchify_entry (data : List ℕ) (B r c : ℕ)
    (hr : r < data.length / B) (hc : c < B) :
    ((batchify data B).getD r []).getD c 0 =
      data.getD (c * (data.length / B) + r) 0 := by
  unfold batchify
  rw [getD_map_range _ _ _ _ hr, List.map_map, getD_map_range _ _ _ _ hc]
  have hidx : c * (data.length / B) + r < (data.length / B) * B := by
    calc c * (data.length / B) + r
        < c * (data.length / B) + data.length / B := by omega
      _ = (c + 1) * (data.length / B) := by ring
      _ ≤ B * (data.length / B) := Nat.mul_le_mul_right _ hc
      _ = (data.length / B) * B := Nat.mul_comm _ _
  simp only [Function.comp]
  rw [List.getD_eq_getElem?_getD, List.getD_eq_getElem?_getD]
  rw [List.getElem?_take, if_pos hr, List.getElem?_drop]
  rw [List.getElem?_take, if_pos hidx]

/-! ## Claim C3: batcher shape and content -/

/-- C3: for every token stream of length `N` and batch width `B >= 1`, the
batcher yields `floor (N / B)` rows of `B` columns each, where row `r`,
column `c` is token `c * floor (N / B) + r` of the stream (so the columns
are the `B` equal contiguous chunks of the truncated stream and the last
`N mod B` tokens are dropped); concretely, the stream `[0, ..., 25]` with
`B = 4` yields the displayed `6 x 4` grid, dropping tokens `24, 25`. -/
theorem C3_batchify :
    (∀ (data : List ℕ) (B : ℕ), 1 ≤ B →
      (batchify data B).length = data.length / B ∧
      (∀ row ∈ batchify data B, row.length = B) ∧
      ∀ r c, r < data.length / B → c < B →
        ((batchify data B).getD r []).getD c 0 =
          data.getD (c * (data.length / B) + r) 0) ∧
    batchify (List.range 26) 4 =
      [[0, 6, 12, 18], [1, 7, 13, 19], [2, 8, 14, 20],
       [3, 9, 15, 21], [4, 10, 16, 22], [5, 11, 17, 23]] :=
  ⟨fun data B _ => ⟨batchify_length data B, batchify_row_length data B,
      fun r c hr hc => batchify_entry data B r c hr hc⟩,
   by decide⟩

/-- C3 (witness): the general statement applied to the 26-token stream with
`B = 4` at row `1`, column `2`. -/
theorem C3_batchify_witness :
    (batchify (List.range 26) 4).length = 6 ∧
    ((batchify (List.range 26) 4).getD 1 []).getD 2 0 = 13 := by
  have h := (C3_batchify.1 (List.range 26) 4 (by decide))
  refine ⟨by simpa using h.1, ?_⟩
  have := h.2.2 1 2 (by simp) (by decide)
  simpa using this

/-- `getD` through a `drop`-then-`take` slice of a row list. -/
theorem getD_slice (l : List (List ℕ)) (m n t : ℕ) (ht : t < n) :
    ((l.drop m).take n).getD t [] = l.getD (m + t) [] := by
  rw [List.getD_eq_getElem?_getD, List.getD_eq_getElem?_getD,
    List.getElem?_take, if_pos ht, List.getElem?_drop]

/-! ## Claim C4: sequential-mode window -/

/-- C4: for a batched tensor with `R` rows and any start `i < R - 1`, the
sequential branch of `get_batch` returns `data = rows[i : i+L]` and
`target = rows[i+1 : i+1+L]` flattened with `L = min bptt (R - 1 - i)`;
the window length never exceeds `bptt`, and the last accessed row index
`i + L` is below `R`. -/
theorem C4_seq_window :
    ∀ (source : List (List ℕ)) (i bptt : ℕ), i + 1 < source.length →
      (getBatchSeq source i bptt).1.length = min bptt (source.length - 1 - i) ∧
      min bptt (source.length - 1 - i) ≤ bptt ∧
      i + 1 + min bptt (source.length - 1 - i) ≤ source.length ∧
      (∀ t, t < min bptt (source.length - 1 - i) →
        (getBatchSeq source i bptt).1.getD t [] = source.getD (i + t) []) ∧
      (getBatchSeq source i bptt).2 =
        ((source.drop (i + 1)).take (min bptt (source.length - 1 - i))).flatten ∧
      (∀ t, t < min bptt (source.length - 1 - i) →
        ((source.drop (i + 1)).take
            (min bptt (source.length - 1 - i))).getD t [] =
          source.getD (i + 1 + t) []) := by
  intro source i bptt hi
  refine ⟨?_, Nat.min_le_left _ _, by omega, ?_, rfl, ?_⟩
  · simp only [getBatchSeq, List.length_take, List.length_drop]
    omega
  · intro t ht
    simpa using getD_slice source i (min bptt (source.length - 1 - i)) t ht
  · intro t ht
    exact getD_slice source (i + 1) _ t ht

/-- C4 (witness): the sequential window of the `6 x 4` batched alphabet
stream at `i = 0` with `bptt = 2`. -/
theorem C4_seq_window_witness :
    (getBatchSeq (batchify (List.range 26) 4) 0 2).1.length = 2 ∧
    (getBatchSeq (batchify (List.range 26) 4) 0 2).2 =
      [1, 7, 13, 19, 2, 8, 14, 20] := by
  have h := C4_seq_window (batchify (List.range 26) 4) 0 2 (by decide)
  refine ⟨?_, by decide⟩
  rw [h.1]
  decide

/-! ## Claim C5: padded-mode window -/

/-- C5: for a batched tensor with `R` rows and any start `i < R`, the
`pad_start` branch of `get_batch` returns
`data = pad_prefix ++ rows[i : i+L-1]` and `target = rows[i : i+L]`
flattened, with `L = min bptt (R - i)`; the prefix has exactly `norder`
rows, every entry being `pad_id` when vocabulary padding is disabled, and
row `k` being the constant `nvocab + k` (the `norder` distinct ids
`ntokens - norder, ..., ntokens - 1` appended to the vocabulary) when it is
enabled. -/
theorem C5_pad_window :
    ∀ (cfg : Cfg) (source : List (List ℕ)) (i nvocab : ℕ),
      i < source.length →
      (getBatchPad cfg source i (ntokensOf cfg nvocab)).1 =
        padBlock cfg (ntokensOf cfg nvocab) (source.headD []).length ++
          (source.drop i).take (min cfg.bptt (source.length - i) - 1) ∧
      (padBlock cfg (ntokensOf cfg nvocab) (source.headD []).length).length =
        cfg.norder ∧
      (cfg.pad_vocab = false →
        ∀ row ∈ padBlock cfg (ntokensOf cfg nvocab) (source.headD []).length,
          row = List.replicate (source.headD []).length cfg.pad_id) ∧
      (cfg.pad_vocab = true → ∀ k, k < cfg.norder →
        (padBlock cfg (ntokensOf cfg nvocab)
            (source.headD []).length).getD k [] =
          List.replicate (source.headD []).length (nvocab + k)) ∧
      (getBatchPad cfg source i (ntokensOf cfg nvocab)).2 =
        ((source.drop i).take (min cfg.bptt (source.length - i))).flatten ∧
      (∀ t, t < min cfg.bptt (source.length - i) →
        ((source.drop i).take (min cfg.bptt (source.length - i))).getD t [] =
          source.getD (i + t) []) := by
  intro cfg source i nvocab _
  refine ⟨rfl, ?_, ?_, ?_, rfl, ?_⟩
  · unfold padBlock
    cases h : cfg.pad_vocab <;> simp
  · intro hpv row hrow
    unfold padBlock at hrow
    rw [hpv] at hrow
    simp only [Bool.false_eq_true, if_false] at hrow
    exact List.eq_of_mem_replicate hrow
  · intro hpv k hk
    unfold padBlock
    rw [hpv]
    simp only [if_true]
    rw [getD_map_range _ _ _ _ hk]
    unfold ntokensOf
    rw [hpv]
    simp only [if_true]
    congr 1
    omega
  · intro t ht
    exact getD_slice source i _ t ht

/-- C5 (witness): the padded window of a `4 x 1` tensor at `i = 0`,
`bptt = 2`, `norder = 2`, in both padding modes. -/
theorem C5_pad_window_witness :
    (getBatchPad ⟨2, 2, false, 9⟩ [[0], [1], [2], [3]] 0
        (ntokensOf ⟨2, 2, false, 9⟩ 10)).1 = [[9], [9], [0]] ∧
    (getBatchPad ⟨2, 2, true, 9⟩ [[0], [1], [2], [3]] 0
        (ntokensOf ⟨2, 2, true, 9⟩ 10)).1 = [[10], [11], [0]] ∧
    (getBatchPad ⟨2, 2, false, 9⟩ [[0], [1], [2], [3]] 0
        (ntokensOf ⟨2, 2, false, 9⟩ 10)).2 = [0, 1] := by
  have h1 := C5_pad_window ⟨2, 2, false, 9⟩ [[0], [1], [2], [3]] 0 10
    (by decide)
  have h2 := C5_pad_window ⟨2, 2, true, 9⟩ [[0], [1], [2], [3]] 0 10
    (by decide)
  refine ⟨?_, ?_, by decide⟩
  · rw [h1.1]; decide
  · rw [h2.1]; decide

/-- Length of the flattening of a list of uniform-length rows. -/
theorem flatten_length_of_uniform (l : List (List ℕ)) (n : ℕ)
    (h : ∀ row ∈ l, row.length = n) : l.flatten.length = l.length * n := by
  induction l with
  | nil => simp
  | cons a t ih =>
    simp only [List.flatten_cons, List.length_append, List.length_cons,
      h a (List.mem_cons_self a t), ih fun r hr => h r (List.mem_cons_of_mem a hr)]
    ring

/-- The flattened padded-mode target holds `min bptt (R - i)` tokens per
column. -/
theorem getBatchPad_target_length (cfg : Cfg) (source : List (List ℕ))
    (i n ncols : ℕ) (hu : ∀ row ∈ source, row.length = ncols) :
    (getBatchPad cfg source i n).2.length =
      min cfg.bptt (source.length - i) * ncols := by
  unfold getBatchPad
  simp only
  rw [flatten_length_of_uniform _ ncols fun row hrow =>
    hu row (List.mem_of_mem_drop (List.mem_of_mem_take hrow))]
  rw [List.length_take, List.length_drop]
  congr 1
  omega

/-- The flattened sequential-mode target holds `min bptt (R - 1 - i)` tokens
per column. -/
theorem getBatchSeq_target_length (source : List (List ℕ))
    (i bptt ncols : ℕ) (hu : ∀ row ∈ source, row.length = ncols) :
    (getBatchSeq source i bptt).2.length =
      min bptt (source.length - 1 - i) * ncols := by
  unfold getBatchSeq
  simp only
  rw [flatten_length_of_uniform _ ncols fun row hrow =>
    hu row (List.mem_of_mem_drop (List.mem_of_mem_take hrow))]
  rw [List.length_take, List.length_drop]
  congr 1
  omega

/-! ## Claim C6: padded vs sequential prediction counts -/

/-- C6 (counterexample): on a `4 x 1` batched tensor with `bptt = 2`,
`norder = 2`, at start `i = 0` (valid in both modes), the padded-mode target
holds `2` tokens per column and the sequential-mode target also holds `2` —
not one more. -/
theorem C6_counterexample :
    (getBatchPad ⟨2, 2, false, 9⟩ [[0], [1], [2], [3]] 0 10).2.length = 2 ∧
    (getBatchSeq [[0], [1], [2], [3]] 0 2).2.length = 2 ∧
    (2 : ℕ) ≠ 2 + 1 := by
  decide

/-- C6 (amended): on a batched tensor with `R` rows of uniform width
`ncols` and a start `i` valid in both modes, the padded-mode target holds
`min bptt (R - i)` tokens per column and the sequential-mode target
`min bptt (R - 1 - i)`; the padded count exceeds the sequential count by
one exactly when the window is truncated by the end of the tensor
(`R - i <= bptt`), and the two counts are equal otherwise. -/
theorem C6_prediction_counts :
    ∀ (cfg : Cfg) (source : List (List ℕ)) (i n ncols : ℕ),
      (∀ row ∈ source, row.length = ncols) → i + 1 < source.length →
      (getBatchPad cfg source i n).2.length =
        min cfg.bptt (source.length - i) * ncols ∧
      (getBatchSeq source i cfg.bptt).2.length =
        min cfg.bptt (source.length - 1 - i) * ncols ∧
      (min cfg.bptt (source.length - i) =
          min cfg.bptt (source.length - 1 - i) + 1 ↔
        source.length - i ≤ cfg.bptt) ∧
      (cfg.bptt < source.length - i →
        min cfg.bptt (source.length - i) =
          min cfg.bptt (source.length - 1 - i)) := by
  intro cfg source i n ncols hu hi
  exact ⟨getBatchPad_target_length cfg source i n ncols hu,
    getBatchSeq_target_length source i cfg.bptt ncols hu,
    by omega, by omega⟩

/-- C6 (witness): on a `4 x 1` tensor with `bptt = 5` at `i = 0` the window
is truncated, and the padded target indeed holds one more token per column;
with `bptt = 2` the two counts coincide. -/
theorem C6_prediction_counts_witness :
    (getBatchPad ⟨5, 2, false, 9⟩ [[0], [1], [2], [3]] 0 10).2.length = 4 ∧
    min 5 ((4 : ℕ) - 0) = min 5 (4 - 1 - 0) + 1 ∧
    min 2 ((4 : ℕ) - 0) = min 2 (4 - 1 - 0) := by
  have h := C6_prediction_counts ⟨5, 2, false, 9⟩ [[0], [1], [2], [3]] 0 10 1
    (by decide) (by decide)
  have h2 := C6_prediction_counts ⟨2, 2, false, 9⟩ [[0], [1], [2], [3]] 0 10 1
    (by decide) (by decide)
  refine ⟨?_, h.2.2.1.mpr (by decide), h2.2.2.2 (by decide)⟩
  rw [h.1]
  decide

/-- The padding block always has exactly `norder` rows. -/
theorem padBlock_length (cfg : Cfg) (n ncols : ℕ) :
    (padBlock cfg n ncols).length = cfg.norder := by
  unfold padBlock
  split <;> simp

/-! ## Claim C7: data/target alignment invariant -/

/-- C7 (counterexample): on a `4 x 1` batched tensor with `bptt = 2` and
`norder = 2`, the padded-mode window at `i = 0` has `3` data rows but only
`2` target tokens per column — the claimed equal token count per column
fails. -/
theorem C7_counterexample :
    (getBatchPad ⟨2, 2, false, 9⟩ [[0], [1], [2], [3]] 0 10).1.length = 3 ∧
    (getBatchPad ⟨2, 2, false, 9⟩ [[0], [1], [2], [3]] 0 10).2.length = 2 ∧
    (3 : ℕ) ≠ 2 := by
  decide

/-- C7 (amended): in sequential mode data and target have the same token
count per column (`L = min bptt (R - 1 - i)`) and target row `t` is the
stream successor of data row `t`.  In padded mode data has
`norder + L - 1` rows against `L` target rows per column
(`L = min bptt (R - i)`): target row `0` is the tensor row at position `i`,
predicted from the synthetic prefix alone, and target row `t + 1` is the
stream successor of data row `norder + t`. -/
theorem C7_data_target_alignment :
    ∀ (cfg : Cfg) (source : List (List ℕ)) (i n ncols : ℕ),
      (∀ row ∈ source, row.length = ncols) → i + 1 < source.length →
      1 ≤ cfg.bptt →
      (getBatchSeq source i cfg.bptt).1.length =
        min cfg.bptt (source.length - 1 - i) ∧
      (getBatchSeq source i cfg.bptt).2.length =
        min cfg.bptt (source.length - 1 - i) * ncols ∧
      (∀ t, t < min cfg.bptt (source.length - 1 - i) →
        (getBatchSeq source i cfg.bptt).1.getD t [] = source.getD (i + t) [] ∧
        ((source.drop (i + 1)).take
            (min cfg.bptt (source.length - 1 - i))).getD t [] =
          source.getD (i + t + 1) []) ∧
      (getBatchPad cfg source i n).1.length =
        cfg.norder + (min cfg.bptt (source.length - i) - 1) ∧
      (getBatchPad cfg source i n).2.length =
        min cfg.bptt (source.length - i) * ncols ∧
      ((source.drop i).take (min cfg.bptt (source.length - i))).getD 0 [] =
        source.getD i [] ∧
      (∀ t, t + 1 < min cfg.bptt (source.length - i) →
        (getBatchPad cfg source i n).1.getD (cfg.norder + t) [] =
          source.getD (i + t) [] ∧
        ((source.drop i).take (min cfg.bptt (source.length - i))).getD
            (t + 1) [] =
          source.getD (i + t + 1) []) := by
  intro cfg source i n ncols hu hi hb
  refine ⟨?_, getBatchSeq_target_length source i cfg.bptt ncols hu, ?_, ?_,
    getBatchPad_target_length cfg source i n ncols hu, ?_, ?_⟩
  · simp only [getBatchSeq, List.length_take, List.length_drop]
    omega
  · intro t ht
    constructor
    · simpa using getD_slice source i (min cfg.bptt (source.length - 1 - i)) t ht
    · have := getD_slice source (i + 1) (min cfg.bptt (source.length - 1 - i)) t ht
      rwa [show i + 1 + t = i + t + 1 by omega] at this
  · unfold getBatchPad
    simp only [List.length_append, List.length_take, List.length_drop,
      padBlock_length]
    omega
  · have hpos : 0 < min cfg.bptt (source.length - i) := by omega
    simpa using getD_slice source i (min cfg.bptt (source.length - i)) 0 hpos
  · intro t ht
    constructor
    · show (padBlock cfg n (source.headD []).length ++
        (source.drop i).take (min cfg.bptt (source.length - i) - 1)).getD
          (cfg.norder + t) [] = source.getD (i + t) []
      rw [List.getD_eq_getElem?_getD, List.getElem?_append_right
        (by rw [padBlock_length]; omega), padBlock_length]
      rw [show cfg.norder + t - cfg.norder = t by omega]
      rw [← List.getD_eq_getElem?_getD]
      exact getD_slice source i (min cfg.bptt (source.length - i) - 1) t
        (by omega)
    · have := getD_slice source i (min cfg.bptt (source.length - i)) (t + 1)
        ht
      rwa [show i + (t + 1) = i + t + 1 by omega] at this

/-- C7 (witness): the amended alignment applied to a `4 x 1` tensor with
`bptt = 2`, `norder = 2` at `i = 0`. -/
theorem C7_data_target_alignment_witness :
    (getBatchSeq [[0], [1], [2], [3]] 0 2).1.length = 2 ∧
    (getBatchPad ⟨2, 2, false, 9⟩ [[0], [1], [2], [3]] 0 10).1.length = 3 ∧
    (([[0], [1], [2], [3]].drop 0).take 2).getD 0 [] = [(0 : ℕ)] := by
  have h := C7_data_target_alignment ⟨2, 2, false, 9⟩ [[0], [1], [2], [3]]
    0 10 1 (by decide) (by decide) (by decide)
  refine ⟨?_, ?_, ?_⟩
  · simpa using h.1
  · simpa using h.2.2.2.1
  · decide

/-- The sequential-mode data slice has `min bptt (R - 1 - i)` rows. -/
theorem getBatchSeq_data_length (source : List (List ℕ)) (i bptt : ℕ) :
    (getBatchSeq source i bptt).1.length = min bptt (source.length - 1 - i) := by
  simp only [getBatchSeq, List.length_take, List.length_drop]
  omega

/-- The window lengths visited by `range(a, stop, step)` tile `[a, stop)`:
their sum is `stop - a`. -/
theorem rangeStep_sum_min (step stop a : ℕ) (hstep : 0 < step) :
    ((rangeStep a stop step).map fun i => min step (stop - i)).sum = stop - a := by
  rw [rangeStep]
  split
  · rename_i h
    simp only [List.map_cons, List.sum_cons]
    rw [rangeStep_sum_min step stop (a + step) hstep]
    omega
  · rename_i h
    simp only [List.map_nil, List.sum_nil]
    omega
termination_by stop - a
decreasing_by omega

/-- Folding an accumulating sum equals the sum of the mapped list. -/
theorem foldl_add_map (l : List ℕ) (f : ℕ → ℚ) (init : ℚ) :
    l.foldl (fun acc i => acc + f i) init = init + (l.map f).sum := by
  induction l generalizing init with
  | nil => simp
  | cons a t ih =>
    simp only [List.foldl_cons, List.sum_cons, List.map_cons, ih]
    ring

/-! ## Claim C8: evaluation loss aggregation -/

/-- C8 (counterexample): in padded mode with `norder = 2`, `bptt = 2` on a
`3 x 1` split, a criterion that is identically `1` (so the true mean
per-token loss is `1`) makes `evaluate` return `3 / 2`: the accumulated
weight is the data row count `norder + L - 1 = 3`, not the window's target
token count, so the result is not the mean per-token loss. -/
theorem C8_counterexample :
    evaluate ⟨2, 2, false, 9⟩ [[0], [1], [2]] 10 true (fun _ => 1) = 3 / 2 ∧
    (3 : ℚ) / 2 ≠ 1 := by
  constructor
  · unfold evaluate
    rw [rangeStep]
    norm_num
    rw [rangeStep]
    norm_num [getBatchPad, padBlock]
  · norm_num

/-- C8 (amended): `evaluate` walks the whole split with the training window
extractor, accumulating each window's criterion value weighted by the row
count of its `data` tensor, and divides by `R - 1`.  In sequential mode the
weights are the per-column target token counts `min bptt (R - 1 - i)` and
they sum to `R - 1` — the result is the token-count-weighted mean (in
particular a constant per-window criterion `c` yields exactly `c`).  In
padded mode the weight is `norder + L - 1`, so the result deviates from the
per-token mean (see the counterexample).  The result is a pure function of
the split and criterion (deterministic). -/
theorem C8_evaluate_seq_mean :
    ∀ (cfg : Cfg) (source : List (List ℕ)) (n : ℕ) (c : ℚ),
      1 ≤ cfg.bptt →
      (((rangeStep 0 (source.length - 1) cfg.bptt).map fun i =>
          (getBatchSeq source i cfg.bptt).1.length).sum =
        source.length - 1) ∧
      (2 ≤ source.length → evaluate cfg source n false (fun _ => c) = c) := by
  intro cfg source n c hb
  have hsum : ((rangeStep 0 (source.length - 1) cfg.bptt).map fun i =>
      (getBatchSeq source i cfg.bptt).1.length).sum = source.length - 1 := by
    have := rangeStep_sum_min cfg.bptt (source.length - 1) 0 hb
    simp only [getBatchSeq_data_length]
    simpa using this
  refine ⟨hsum, fun hR => ?_⟩
  unfold evaluate
  simp only [Bool.false_eq_true, if_false]
  rw [foldl_add_map _ (fun i => ((getBatchSeq source i cfg.bptt).1.length : ℚ) * c) 0]
  rw [zero_add]
  have hmaps : ((rangeStep 0 (source.length - 1) cfg.bptt).map fun i =>
        ((getBatchSeq source i cfg.bptt).1.length : ℚ) * c) =
      List.map (· * c) ((rangeStep 0 (source.length - 1) cfg.bptt).map fun i =>
        ((getBatchSeq source i cfg.bptt).1.length : ℚ)) := by
    rw [List.map_map]
    rfl
  rw [hmaps, List.sum_map_mul_right]
  simp only [List.map_id']
  have hcast : (((rangeStep 0 (source.length - 1) cfg.bptt).map fun i =>
        ((getBatchSeq source i cfg.bptt).1.length : ℚ)).sum) =
      ((source.length - 1 : ℕ) : ℚ) := by
    rw [show ((rangeStep 0 (source.length - 1) cfg.bptt).map fun i =>
        ((getBatchSeq source i cfg.bptt).1.length : ℚ)) =
      ((rangeStep 0 (source.length - 1) cfg.bptt).map fun i =>
        (getBatchSeq source i cfg.bptt).1.length).map (Nat.cast) from by
        rw [List.map_map]; rfl]
    rw [← Nat.cast_list_sum, hsum]
  rw [hcast]
  have hne : ((source.length : ℚ) - 1) ≠ 0 := by
    have : (2 : ℚ) ≤ (source.length : ℚ) := by exact_mod_cast hR
    intro habs
    nlinarith
  have hcast2 : ((source.length - 1 : ℕ) : ℚ) = (source.length : ℚ) - 1 := by
    have : 1 ≤ source.length := by omega
    push_cast [this]
    ring
  rw [hcast2, mul_comm, mul_div_assoc, div_self hne, mul_one]

/-- C8 (witness): sequential-mode evaluation of a `6 x 1` split with
`bptt = 2` and constant criterion `7` returns exactly `7`, and the window
weights sum to `R - 1 = 5`. -/
theorem C8_evaluate_seq_mean_witness :
    evaluate ⟨2, 2, false, 9⟩ [[0], [1], [2], [3], [4], [5]] 10 false
      (fun _ => 7) = 7 ∧
    ((rangeStep 0 5 2).map fun i =>
      (getBatchSeq [[0], [1], [2], [3], [4], [5]] i 2).1.length).sum = 5 := by
  have h := C8_evaluate_seq_mean ⟨2, 2, false, 9⟩
    [[0], [1], [2], [3], [4], [5]] 10 7 (by decide)
  exact ⟨h.2 (by decide), by simpa using h.1⟩

/-- Pointwise rewriting of the manual SGD update `p + g * (-lr)` as
`p - lr * g`. -/
theorem zipWith_sgd_ring (lr : ℚ) (params grads : List ℚ) :
    List.zipWith (fun p g => p + g * (-lr)) params grads =
      List.zipWith (fun p g => p - lr * g) params grads := by
  induction params generalizing grads with
  | nil => simp
  | cons p ps ih =>
    cases grads with
    | nil => simp
    | cons g gs =>
      simp only [List.zipWith_cons_cons, ih]
      congr 1
      ring

/-! ## Claim C9: optimizer selection and updates -/

/-- C9: a run whose optimizer name is neither `'adamw'` nor `'sgd'` fails
with the assertion message before the training loop can run; `'adamw'`
constructs AdamW with the configured learning rate and weight decay;
`'sgd'` applies the manual parameter update `p - lr * g` with the current
learning rate, and any other accepted name defers to the optimizer step. -/
theorem C9_optimizer_policy :
    (∀ (name : String) (lr wd : ℚ) {α : Type} (body : OptimChoice → α),
      name ≠ "adamw" → name ≠ "sgd" →
      runProgram name lr wd body =
        .error "Specified optimizer not supported") ∧
    (∀ lr wd : ℚ, setupOptimizer "adamw" lr wd = .ok (.adamw lr wd)) ∧
    (∀ lr wd : ℚ, setupOptimizer "sgd" lr wd = .ok .sgd) ∧
    (∀ (lr : ℚ) (params grads : List ℚ)
        (adamStep : List ℚ → List ℚ → List ℚ),
      optimizerUpdate "sgd" lr params grads adamStep =
        List.zipWith (fun p g => p - lr * g) params grads) ∧
    (∀ (name : String) (lr : ℚ) (params grads : List ℚ)
        (adamStep : List ℚ → List ℚ → List ℚ), name ≠ "sgd" →
      optimizerUpdate name lr params grads adamStep = adamStep params grads) := by
  refine ⟨?_, ?_, ?_, ?_, ?_⟩
  · intro name lr wd α body h1 h2
    simp [runProgram, setupOptimizer, h1, h2, Except.map]
  · intro lr wd
    rfl
  · intro lr wd
    rfl
  · intro lr params grads adamStep
    rw [show optimizerUpdate "sgd" lr params grads adamStep =
      List.zipWith (fun p g => p + g * (-lr)) params grads from rfl]
    exact zipWith_sgd_ring lr params grads
  · intro name lr params grads adamStep h
    simp [optimizerUpdate, h]

/-- C9 (witness): the policy at concrete inputs — an unsupported name
fails, `'adamw'` carries its configured rate and decay, and the manual SGD
update maps parameter `10` with gradient `4` at `lr = 2` to `2`. -/
theorem C9_optimizer_policy_witness :
    runProgram "rmsprop" 1 2 (fun c => c) =
      .error "Specified optimizer not supported" ∧
    setupOptimizer "adamw" 1 2 = .ok (.adamw 1 2) ∧
    optimizerUpdate "sgd" 2 [10] [4] (fun p _ => p) = [2] := by
  have h := C9_optimizer_policy
  refine ⟨h.1 "rmsprop" 1 2 (fun c => c) (by decide) (by decide),
    h.2.1 1 2, ?_⟩
  rw [h.2.2.2.1 2 [10] [4] (fun p _ => p)]
  norm_num

end WordLM
